import Mathlib

/-!
Shallow embedding of the adtennant/chip8 interpreter.

The Go sources embedded here are:
* `chip8/chip8.go` — the CPU core (`Chip8` struct, `fetch`, `execute`, `Cycle`,
  `LoadROM`) together with its embedded `Display` (`Clear`, `DrawSprite`);
* `chip8/opcodes/opcodes.go` — the standalone opcode decoder (`Opcode.Instruction`);
* the `display` package variant (`Display.Clear`/`DrawSprite` returning an error).

Machine integers are modelled as `Nat` with explicit reductions: 8-bit values
are reduced `% 256` at reads (Go's `uint8` typing), 16-bit values `% 65536`.
Fixed-size Go arrays (`v`, `stack`, `memory`, the pixel grid) are modelled as
total functions; unguarded out-of-range accesses in the Go code simply read the
function, which is the subject of the bounds claims.
External collaborators (Keys, Beeper, Drawer, `rand`) are oracles passed in.
-/

namespace Chip8Em

/-- Pixel grid of the display: row, column → pixel. Go: `[32][64]bool`. -/
abbrev Grid := Nat → Nat → Bool

/-- `Instruction.opcode()` / `Opcode` top-nibble mask: `uint16(i) & 0xF000`. -/
def opcodeOf (w : Nat) : Nat := w &&& 0xF000

/-- `x()`: `uint8((i & 0x0F00) >> 8)`. -/
def xOf (w : Nat) : Nat := (w &&& 0x0F00) >>> 8

/-- `y()`: `uint8((i & 0x00F0) >> 4)`. -/
def yOf (w : Nat) : Nat := (w &&& 0x00F0) >>> 4

/-- `n()`: `uint8(i & 0x000F)`. -/
def nOf (w : Nat) : Nat := w &&& 0x000F

/-- `nn()`: `uint8(i & 0x00FF)`. -/
def nnOf (w : Nat) : Nat := w &&& 0x00FF

/-- `nnn()`: `uint16(i) & 0x0FFF`. -/
def nnnOf (w : Nat) : Nat := w &&& 0x0FFF

/-- The closed set of operation tags from `chip8/opcodes/opcodes.go`:
34 named instructions plus `Unknown`. -/
inductive Instr where
  | unknown
  | i00E0 | i00EE | i1NNN | i2NNN | i3XNN | i4XNN | i5XY0 | i6XNN | i7XNN
  | i8XY0 | i8XY1 | i8XY2 | i8XY3 | i8XY4 | i8XY5 | i8XY6 | i8XY7 | i8XYE
  | i9XY0 | iANNN | iBNNN | iCXNN | iDXYN | iEX9E | iEXA1
  | iFX07 | iFX0A | iFX15 | iFX18 | iFX1E | iFX29 | iFX33 | iFX55 | iFX65
  deriving DecidableEq, Repr

/-- `Opcode.Instruction()` from `chip8/opcodes/opcodes.go`: switch on the top
nibble, second-level switch on `nn` or `n`; every unmatched inner case falls
through to `InstructionUnknown`. -/
def instructionOf (w : Nat) : Instr :=
  match opcodeOf w with
  | 0x0000 =>
    match nnOf w with
    | 0xE0 => .i00E0
    | 0xEE => .i00EE
    | _ => .unknown
  | 0x1000 => .i1NNN
  | 0x2000 => .i2NNN
  | 0x3000 => .i3XNN
  | 0x4000 => .i4XNN
  | 0x5000 => if nOf w = 0 then .i5XY0 else .unknown
  | 0x6000 => .i6XNN
  | 0x7000 => .i7XNN
  | 0x8000 =>
    match nOf w with
    | 0x0 => .i8XY0
    | 0x1 => .i8XY1
    | 0x2 => .i8XY2
    | 0x3 => .i8XY3
    | 0x4 => .i8XY4
    | 0x5 => .i8XY5
    | 0x6 => .i8XY6
    | 0x7 => .i8XY7
    | 0xE => .i8XYE
    | _ => .unknown
  | 0x9000 => if nOf w = 0 then .i9XY0 else .unknown
  | 0xA000 => .iANNN
  | 0xB000 => .iBNNN
  | 0xC000 => .iCXNN
  | 0xD000 => .iDXYN
  | 0xE000 =>
    match nnOf w with
    | 0x9E => .iEX9E
    | 0xA1 => .iEXA1
    | _ => .unknown
  | 0xF000 =>
    match nnOf w with
    | 0x07 => .iFX07
    | 0x15 => .iFX15
    | 0x18 => .iFX18
    | 0x1E => .iFX1E
    | 0x0A => .iFX0A
    | 0x29 => .iFX29
    | 0x33 => .iFX33
    | 0x55 => .iFX55
    | 0x65 => .iFX65
    | _ => .unknown
  | _ => .unknown

/-- Modelled from the spec (§4.1): the decoder classification as a function of
the top nibble and the low byte alone — "switch on the top nibble; for
families `0x0`, `0x8`, `0xE`, `0xF` a second-level switch on the low byte
(`nn`) or low nibble (`n`) resolves the specific operation; families `0x5`
and `0x9` additionally validate that the trailing nibble is `0`, else they
too resolve to `Unknown`". -/
def decodeSpec (hi nn : Nat) : Instr :=
  match hi with
  | 0x0 =>
    match nn with
    | 0xE0 => .i00E0
    | 0xEE => .i00EE
    | _ => .unknown
  | 0x1 => .i1NNN
  | 0x2 => .i2NNN
  | 0x3 => .i3XNN
  | 0x4 => .i4XNN
  | 0x5 => if nn % 16 = 0 then .i5XY0 else .unknown
  | 0x6 => .i6XNN
  | 0x7 => .i7XNN
  | 0x8 =>
    match nn % 16 with
    | 0x0 => .i8XY0
    | 0x1 => .i8XY1
    | 0x2 => .i8XY2
    | 0x3 => .i8XY3
    | 0x4 => .i8XY4
    | 0x5 => .i8XY5
    | 0x6 => .i8XY6
    | 0x7 => .i8XY7
    | 0xE => .i8XYE
    | _ => .unknown
  | 0x9 => if nn % 16 = 0 then .i9XY0 else .unknown
  | 0xA => .iANNN
  | 0xB => .iBNNN
  | 0xC => .iCXNN
  | 0xD => .iDXYN
  | 0xE =>
    match nn with
    | 0x9E => .iEX9E
    | 0xA1 => .iEXA1
    | _ => .unknown
  | 0xF =>
    match nn with
    | 0x07 => .iFX07
    | 0x15 => .iFX15
    | 0x18 => .iFX18
    | 0x1E => .iFX1E
    | 0x0A => .iFX0A
    | 0x29 => .iFX29
    | 0x33 => .iFX33
    | 0x55 => .iFX55
    | 0x65 => .iFX65
    | _ => .unknown
  | _ => .unknown

example : instructionOf 0x5121 = .unknown := by decide
example : instructionOf 0x5120 = .i5XY0 := by decide
example : instructionOf 0xF533 = .iFX33 := by decide

/-- Pointwise update of a `Nat → Nat` array model. -/
def upd (f : Nat → Nat) (k v : Nat) : Nat → Nat := fun j => if j = k then v else f j

/-- Pointwise update of the pixel grid. -/
def updG (g : Grid) (r c : Nat) (b : Bool) : Grid :=
  fun r' c' => if r' = r ∧ c' = c then b else g r' c'

/-- The `Chip8` struct of `chip8/chip8.go` together with its embedded
`Display.pixels`.  Fixed-size arrays become total functions; sizes (16
registers, 16 stack slots, 4096 memory bytes, 32×64 pixels) are carried by
the access patterns of the operations. -/
structure Chip8 where
  v : Nat → Nat
  i : Nat
  pc : Nat
  stack : Nat → Nat
  sp : Nat
  memory : Nat → Nat
  pixels : Grid
  delayTimer : Nat
  soundTimer : Nat

/-- Read of an 8-bit register `c.v[x]` (Go type `uint8`). -/
def V (s : Chip8) (x : Nat) : Nat := s.v x % 256

/-- Read of the 16-bit program counter. -/
def PC (s : Chip8) : Nat := s.pc % 65536

/-- Read of the 16-bit index register. -/
def IReg (s : Chip8) : Nat := s.i % 65536

/-- Read of the 16-bit stack pointer. -/
def SP (s : Chip8) : Nat := s.sp % 65536

/-- Read of a 16-bit stack slot. -/
def stackAt (s : Chip8) (k : Nat) : Nat := s.stack k % 65536

/-- Read of a memory byte. -/
def mem8 (s : Chip8) (a : Nat) : Nat := s.memory a % 256

/-- Read of the 8-bit delay timer. -/
def DT (s : Chip8) : Nat := s.delayTimer % 256

/-- Read of the 8-bit sound timer. -/
def ST (s : Chip8) : Nat := s.soundTimer % 256

/-- Write to a register: `c.v[x] = val`. -/
def setV (s : Chip8) (x val : Nat) : Chip8 := { s with v := upd s.v x val }

/-- The external collaborators of one cycle: `Keys`, the `rand` source and the
`Drawer` (whose result the old core discards).  `draw` returns `none` on
success and `some code` for a presentation error. -/
structure Oracle where
  isKeyDown : Nat → Bool
  wasKeyReleased : Nat → Bool
  randByte : Nat
  draw : Grid → Option Nat

/-- Payload of `unknownInstructionError(pc, instruction)`. -/
structure ErrInfo where
  pc : Nat
  word : Nat
  deriving DecidableEq, Repr

/-- `fetch()`: big-endian 16-bit read of `memory[pc]`, `memory[pc+1]`. -/
def fetchWord (s : Chip8) : Nat := mem8 s (PC s) * 256 + mem8 s (PC s + 1)

/-- The advance `c.pc += 2` performed by `fetch()` after the read. -/
def postFetch (s : Chip8) : Chip8 := { s with pc := (PC s + 2) % 65536 }

/-- Sprite bit for a column: `(sprite[row]>>(7-col))&1 != 0`. -/
def spriteBit (byte col : Nat) : Bool := (byte >>> (7 - col)) &&& 1 != 0

/-- Inner loop of `Display.DrawSprite`: columns `col < 8`, breaking once
`start_x+col >= 64`; XOR write and collision flag exactly as the Go body. -/
def drawCols (startX rowY byte : Nat) : Nat → Nat → Grid → Nat → Grid × Nat
  | 0, _, px, vf => (px, vf)
  | fuel + 1, col, px, vf =>
    if 64 ≤ startX + col then (px, vf)
    else
      let current := px rowY (startX + col)
      let nw := spriteBit byte col
      let px' := if current && nw then updG px rowY (startX + col) false
                 else if !current && nw then updG px rowY (startX + col) true
                 else px
      let vf' := if current && nw then 1 else vf
      drawCols startX rowY byte fuel (col + 1) px' vf'

/-- Outer loop of `Display.DrawSprite`: one sprite byte per row, breaking once
`start_y+row >= 32`. -/
def drawRows (startX startY : Nat) : List Nat → Nat → Grid → Nat → Grid × Nat
  | [], _, px, vf => (px, vf)
  | byte :: rest, row, px, vf =>
    if 32 ≤ startY + row then (px, vf)
    else
      let r := drawCols startX (startY + row) byte 8 0 px vf
      drawRows startX startY rest (row + 1) r.1 r.2

/-- `Display.DrawSprite(x, y, sprite)`: returns the updated grid and the
collision flag `vf` (a `uint8` that starts at 0 and is set to 1 on any
collision). -/
def drawSprite (x y : Nat) (sprite : List Nat) (px : Grid) : Grid × Nat :=
  drawRows x y sprite 0 px 0

/-- `Display.Clear` of the `display` package (`src/unnamed/part_001`): clear
every pixel, then `return d.drawer.Draw(d.pixels)`. -/
def displayClear (draw : Grid → Option Nat) (_px : Grid) : Grid × Option Nat :=
  let px' : Grid := fun _ _ => false
  (px', draw px')

/-- `Display.DrawSprite` of the `display` package (`src/unnamed/part_001`):
same pixel algorithm, then `return vf, d.drawer.Draw(d.pixels)`. -/
def displayDrawSprite (draw : Grid → Option Nat) (x y : Nat) (sprite : List Nat)
    (px : Grid) : (Grid × Nat) × Option Nat :=
  let r := drawSprite x y sprite px
  (r, draw r.1)

/-- The `FX0A` scan loop: `for i := 0; i < 16; i++ { if WasKeyReleased(i) ... }`. -/
def findReleasedAux (f : Nat → Bool) : Nat → Nat → Option Nat
  | 0, _ => none
  | fuel + 1, i => if f i then some i else findReleasedAux f fuel (i + 1)

/-- `FX55` store loop: `for x := 0; x < X+1; x++ { memory[i+x] = v[x] }`. -/
def storeRegs (v m : Nat → Nat) (base : Nat) : Nat → Nat → (Nat → Nat)
  | 0, _ => m
  | cnt + 1, k => storeRegs v (upd m ((base + k) % 65536) (v k % 256)) base cnt (k + 1)

/-- `FX65` load loop: `for x := 0; x < X+1; x++ { v[x] = memory[i+x] }`. -/
def loadRegs (v m : Nat → Nat) (base : Nat) : Nat → Nat → (Nat → Nat)
  | 0, _ => v
  | cnt + 1, k => loadRegs (upd v k (m ((base + k) % 65536) % 256)) m base cnt (k + 1)

/-- `Chip8.execute` from `chip8/chip8.go`: the full opcode switch.  The input
state is the post-fetch state (the Go method runs after `fetch()` advanced
`pc`).  Returns the mutated state and `some err` exactly on the
`goto unknownInstruction` paths, where the error carries the current `pc`
and the raw word. -/
def execute (o : Oracle) (w : Nat) (s : Chip8) : Chip8 × Option ErrInfo :=
  match opcodeOf w with
  | 0x0000 =>
    match nnOf w with
    | 0xE0 => ({ s with pixels := fun _ _ => false }, none)
    | 0xEE =>
      let sp' := (SP s + 65535) % 65536
      ({ s with sp := sp', pc := stackAt s sp' }, none)
    | _ => (s, some ⟨PC s, w⟩)
  | 0x1000 => ({ s with pc := nnnOf w }, none)
  | 0x2000 =>
    ({ s with stack := upd s.stack (SP s) (PC s), sp := (SP s + 1) % 65536,
              pc := nnnOf w }, none)
  | 0x3000 =>
    (if V s (xOf w) = nnOf w then { s with pc := (PC s + 2) % 65536 } else s, none)
  | 0x4000 =>
    (if V s (xOf w) ≠ nnOf w then { s with pc := (PC s + 2) % 65536 } else s, none)
  | 0x5000 =>
    if nOf w = 0 then
      (if V s (xOf w) = V s (yOf w) then { s with pc := (PC s + 2) % 65536 } else s, none)
    else (s, some ⟨PC s, w⟩)
  | 0x6000 => (setV s (xOf w) (nnOf w), none)
  | 0x7000 => (setV s (xOf w) ((V s (xOf w) + nnOf w) % 256), none)
  | 0x8000 =>
    match nOf w with
    | 0x0 => (setV s (xOf w) (V s (yOf w)), none)
    | 0x1 => (setV s (xOf w) (V s (xOf w) ||| V s (yOf w)), none)
    | 0x2 => (setV s (xOf w) (V s (xOf w) &&& V s (yOf w)), none)
    | 0x3 => (setV s (xOf w) (V s (xOf w) ^^^ V s (yOf w)), none)
    | 0x4 =>
      let result := V s (xOf w) + V s (yOf w)
      let s1 := setV s 0xF (if 0xFF < result then 1 else 0)
      (setV s1 (xOf w) (result &&& 0xFF), none)
    | 0x5 =>
      let result := (V s (xOf w) + 65536 - V s (yOf w)) % 65536
      let s1 := setV s 0xF (if V s (yOf w) < V s (xOf w) then 1 else 0)
      (setV s1 (xOf w) (result &&& 0xFF), none)
    | 0x6 =>
      let s1 := setV s (xOf w) (V s (yOf w))
      let s2 := setV s1 0xF (V s1 (xOf w) &&& 0x1)
      (setV s2 (xOf w) (V s2 (xOf w) >>> 1), none)
    | 0x7 =>
      let result := (V s (yOf w) + 65536 - V s (xOf w)) % 65536
      let s1 := setV s 0xF (if V s (xOf w) < V s (yOf w) then 1 else 0)
      (setV s1 (xOf w) (result &&& 0xFF), none)
    | 0xE =>
      let s1 := setV s (xOf w) (V s (yOf w))
      let s2 := setV s1 0xF (V s1 (xOf w) >>> 7)
      (setV s2 (xOf w) ((V s2 (xOf w) <<< 1) % 256), none)
    | _ => (s, some ⟨PC s, w⟩)
  | 0x9000 =>
    if nOf w = 0 then
      (if V s (xOf w) ≠ V s (yOf w) then { s with pc := (PC s + 2) % 65536 } else s, none)
    else (s, some ⟨PC s, w⟩)
  | 0xA000 => ({ s with i := nnnOf w }, none)
  | 0xB000 => ({ s with pc := (V s 0 + nnnOf w) % 65536 }, none)
  | 0xC000 => (setV s (xOf w) ((o.randByte % 256) &&& nnOf w), none)
  | 0xD000 =>
    let x := V s (xOf w) % 64
    let y := V s (yOf w) % 32
    let sprite := (List.range (nOf w)).map (fun k => mem8 s (IReg s + k))
    let r := drawSprite x y sprite s.pixels
    ({ s with v := upd s.v 0xF r.2, pixels := r.1 }, none)
  | 0xE000 =>
    match nnOf w with
    | 0x9E =>
      (if o.isKeyDown (V s (xOf w)) then { s with pc := (PC s + 2) % 65536 } else s, none)
    | 0xA1 =>
      (if !o.isKeyDown (V s (xOf w)) then { s with pc := (PC s + 2) % 65536 } else s, none)
    | _ => (s, some ⟨PC s, w⟩)
  | 0xF000 =>
    match nnOf w with
    | 0x07 => (setV s (xOf w) (DT s), none)
    | 0x15 => ({ s with delayTimer := V s (xOf w) }, none)
    | 0x18 => ({ s with soundTimer := V s (xOf w) }, none)
    | 0x1E => ({ s with i := (IReg s + V s (xOf w)) % 65536 }, none)
    | 0x0A =>
      match findReleasedAux o.wasKeyReleased 16 0 with
      | some i => (setV s (xOf w) i, none)
      | none => ({ s with pc := (PC s + 65534) % 65536 }, none)
    | 0x29 => ({ s with i := (V s (xOf w) * 5) % 65536 }, none)
    | 0x33 =>
      let vx := V s (xOf w)
      let m1 := upd s.memory (IReg s) (vx / 100)
      let m2 := upd m1 ((IReg s + 1) % 65536) ((vx / 10) % 10)
      let m3 := upd m2 ((IReg s + 2) % 65536) ((vx % 100) / 10)
      ({ s with memory := m3 }, none)
    | 0x55 => ({ s with memory := storeRegs s.v s.memory (IReg s) (xOf w + 1) 0 }, none)
    | 0x65 => ({ s with v := loadRegs s.v s.memory (IReg s) (xOf w + 1) 0 }, none)
    | _ => (s, some ⟨PC s, w⟩)
  | _ => (s, some ⟨PC s, w⟩)

/-- Result of one `Cycle()`: the mutated receiver, the number of `Beep()`
calls made, and the returned error. -/
structure CycleOut where
  state : Chip8
  beeps : Nat
  err : Option ErrInfo

/-- `Chip8.Cycle`: fetch, execute, and — only on success — the timer tick
with the edge-triggered beep. -/
def cycle (o : Oracle) (s : Chip8) : CycleOut :=
  let w := fetchWord s
  let r := execute o w (postFetch s)
  match r.2 with
  | some e => ⟨r.1, 0, some e⟩
  | none =>
    let s2 := r.1
    let s3 := if 0 < DT s2 then { s2 with delayTimer := DT s2 - 1 } else s2
    if 0 < ST s3 then
      let s4 := { s3 with soundTimer := ST s3 - 1 }
      ⟨s4, if ST s4 = 0 then 1 else 0, none⟩
    else ⟨s3, 0, none⟩

/-- `n` consecutive `Cycle()` invocations with a (possibly time-varying)
oracle, aborting at the first error; returns the final state, the total
number of `Beep()` calls and the first error if any. -/
def runCycles (os : Nat → Oracle) : Nat → Chip8 → Chip8 × Nat × Option ErrInfo
  | 0, s => (s, 0, none)
  | n + 1, s =>
    let r := cycle (os 0) s
    match r.err with
    | some e => (r.state, r.beeps, some e)
    | none =>
      let rest := runCycles (fun k => os (k + 1)) n r.state
      (rest.1, r.beeps + rest.2.1, rest.2.2)

/-- The only opcode that writes the sound timer is `FX18`. -/
def isFX18 (w : Nat) : Bool := decide (opcodeOf w = 0xF000) && decide (nnOf w = 0x18)

/-- A run of `n` cycles in which every executed instruction succeeds and none
of them is `FX18` (so no instruction rewrites the sound timer). -/
def goodRun (os : Nat → Oracle) : Nat → Chip8 → Bool
  | 0, _ => true
  | n + 1, s =>
    let r := cycle (os 0) s
    !isFX18 (fetchWord s) && r.err.isNone && goodRun (fun k => os (k + 1)) n r.state

/-- The `fontSet` array of `chip8/chip8.go`. -/
def fontSet : List Nat :=
  [0xF0, 0x90, 0x90, 0x90, 0xF0,
   0x20, 0x60, 0x20, 0x20, 0x70,
   0xF0, 0x10, 0xF0, 0x80, 0xF0,
   0xF0, 0x10, 0xF0, 0x10, 0xF0,
   0x90, 0x90, 0xF0, 0x10, 0x10,
   0xF0, 0x80, 0xF0, 0x10, 0xF0,
   0xF0, 0x80, 0xF0, 0x90, 0xF0,
   0xF0, 0x10, 0x20, 0x40, 0x40,
   0xF0, 0x90, 0xF0, 0x90, 0xF0,
   0xF0, 0x90, 0xF0, 0x10, 0xF0,
   0xF0, 0x90, 0xF0, 0x90, 0x90,
   0xE0, 0x90, 0xE0, 0x90, 0xE0,
   0xF0, 0x80, 0x80, 0x80, 0xF0,
   0xE0, 0x90, 0x90, 0x90, 0xE0,
   0xF0, 0x80, 0xF0, 0x80, 0xF0,
   0xF0, 0x80, 0xF0, 0x80, 0x80]

/-- `New(...)`: zero state except `pc = 0x200` and the font copied to the
start of memory. -/
def initState : Chip8 :=
  { v := fun _ => 0, i := 0, pc := 0x200, stack := fun _ => 0, sp := 0,
    memory := fun a => fontSet.getD a 0,
    pixels := fun _ _ => false, delayTimer := 0, soundTimer := 0 }

/-- The `copy(c.memory[0x200:], b)` of `LoadROM`: Go's `copy` writes
`min(len(dst), len(src))` elements, so the write loop stops at the end of the
4096-byte destination. -/
def copyROM : List Nat → Nat → (Nat → Nat) → (Nat → Nat)
  | [], _, m => m
  | b :: rest, idx, m => if idx < 4096 then copyROM rest (idx + 1) (upd m idx b) else m

/-- `LoadROM` payload handling: copy the ROM bytes into memory at `0x200`. -/
def loadROM (rom : List Nat) (s : Chip8) : Chip8 :=
  { s with memory := copyROM rom 0x200 s.memory }

/-- An oracle with no keys pressed, no randomness and a successful drawer. -/
def noOracle : Oracle :=
  { isKeyDown := fun _ => false, wasKeyReleased := fun _ => false,
    randByte := 0, draw := fun _ => none }

/-- Concrete state for exercising `FX33`: `V5 = 123`, `I = 0x300`. -/
def bcdState : Chip8 :=
  { v := fun j => if j = 5 then 123 else 0, i := 0x300, pc := 0x200,
    stack := fun _ => 0, sp := 0, memory := fun _ => 0,
    pixels := fun _ _ => false, delayTimer := 0, soundTimer := 0 }

/-- C1: executing `FX33` with `Vx = 123` writes `1` (hundreds) at `memory[I]`
and `2` (tens) at `memory[I+1]`, but at `memory[I+2]` the code writes
`(Vx%100)/10 = 2` — the tens digit again — whereas the ones digit of 123 is
`123 % 10 = 3`.  This evaluates the embedded `execute` at the failing input. -/
theorem fx33_writes_tens_digit_at_I_plus_2 :
    (execute noOracle 0xF533 bcdState).2 = none ∧
    (execute noOracle 0xF533 bcdState).1.memory 0x300 = 1 ∧
    (execute noOracle 0xF533 bcdState).1.memory 0x301 = 2 ∧
    (execute noOracle 0xF533 bcdState).1.memory 0x302 = 2 ∧
    123 % 10 = 3 := by decide

/-- Pointwise description of Go's `copy(c.memory[idx:], b)` loop: byte `a`
receives `b[a - idx]` when `idx ≤ a < idx + len b` and `a < 4096`, and is
untouched otherwise (the copy silently stops at the end of memory). -/
theorem copyROM_point (b : List Nat) : ∀ (idx : Nat) (m : Nat → Nat) (a : Nat),
    copyROM b idx m a =
      if idx ≤ a ∧ a < idx + b.length ∧ a < 4096 then b.getD (a - idx) 0 else m a := by
  induction b with
  | nil =>
    intro idx m a
    simp only [copyROM, List.length_nil]
    rw [if_neg (by omega)]
  | cons x rest ih =>
    intro idx m a
    simp only [copyROM, List.length_cons]
    by_cases hidx : idx < 4096
    · rw [if_pos hidx, ih]
      by_cases ha : a = idx
      · subst ha
        rw [if_neg (by omega), if_pos (by omega)]
        simp [upd]
      · by_cases hin : idx + 1 ≤ a ∧ a < idx + 1 + rest.length ∧ a < 4096
        · rw [if_pos hin, if_pos (by omega)]
          have h' : a - idx = (a - (idx + 1)) + 1 := by omega
          rw [h', List.getD_cons_succ]
        · rw [if_neg hin, if_neg (by omega)]
          simp [upd, ha]
    · rw [if_neg hidx, if_neg (by omega)]

/-- C7 (amended): `LoadROM` copies the payload into memory from `0x200` on,
silently truncating at the 4096-byte end of memory; there is no size check
and no rejection — every payload mutates memory this way. -/
theorem loadROM_truncates (rom : List Nat) (s : Chip8) (a : Nat) :
    (loadROM rom s).memory a =
      if 0x200 ≤ a ∧ a < 0x200 + rom.length ∧ a < 4096 then rom.getD (a - 0x200) 0
      else s.memory a :=
  copyROM_point rom 0x200 s.memory a

/-- C7 counterexample: a 3585-byte payload (one more than the 3584-byte
capacity) is not rejected before mutation — `LoadROM` writes it into memory,
so the core state is mutated and no error path exists. -/
theorem loadROM_oversize_counterexample :
    (List.replicate 3585 1).length = 3585 ∧ 3584 < 3585 ∧
    (loadROM (List.replicate 3585 1) initState).memory 0x200 = 1 ∧
    initState.memory 0x200 = 0 := by
  refine ⟨by rw [List.length_replicate], by norm_num, ?_, by decide⟩
  simp only [loadROM]
  rw [copyROM_point, if_pos ⟨le_refl _, by rw [List.length_replicate]; norm_num, by norm_num⟩,
    show (0x200 : Nat) - 0x200 = 0 from rfl,
    show (3585 : Nat) = 3584 + 1 from rfl, List.replicate_succ, List.getD_cons_zero]

/-- A ROM whose two instructions are `60FF` (set `V0 = 0xFF`) and `BFFF`
(jump to `V0 + 0xFFF`). -/
def oobROM : List Nat := [0x60, 0xFF, 0xBF, 0xFF]

/-- C9 (amended): the memory accesses inside `Cycle` are unguarded and their
bounds are not an invariant of reachable states: after loading `oobROM` and
running two successful cycles, the program counter is `0x10FE > 4094`, so the
next fetch would read past the end of the 4096-byte memory. -/
theorem cycle_bounds_not_invariant :
    (runCycles (fun _ => noOracle) 2 (loadROM oobROM initState)).2.2 = none ∧
    (runCycles (fun _ => noOracle) 2 (loadROM oobROM initState)).1.pc = 0x10FE ∧
    4094 < 0x10FE := by decide

/-- C9 counterexample: the claimed fetch bound `PC ≤ 4094` fails at a state
reachable from the initial state by `LoadROM` and two `Cycle` calls. -/
theorem cycle_bounds_counterexample :
    ¬ ((runCycles (fun _ => noOracle) 2 (loadROM oobROM initState)).1.pc ≤ 4094) := by
  decide

/-- `execute` either succeeds, or it leaves the state untouched and reports
`unknownInstructionError(pc, instruction)` for the current `pc` and word. -/
theorem execute_err_cases (o : Oracle) (w : Nat) (s : Chip8) :
    (execute o w s).2 = none ∨ execute o w s = (s, some ⟨PC s, w⟩) := by
  unfold execute
  repeat' split
  all_goals simp

/-- If `execute` succeeds, `Cycle` reports no error (the tick never fails). -/
theorem cycle_err_of_execute (o : Oracle) (s : Chip8)
    (h : (execute o (fetchWord s) (postFetch s)).2 = none) :
    (cycle o s).err = none := by
  simp only [cycle, h]
  repeat' split
  all_goals rfl

/-- `execute` on a word decoding to clear-screen (`00E0`) never errors. -/
theorem execute_clear_ok (o : Oracle) (w : Nat) (s : Chip8)
    (h1 : opcodeOf w = 0x0000) (h2 : nnOf w = 0xE0) : (execute o w s).2 = none := by
  unfold execute
  rw [h1, h2]

/-- `execute` on a draw word (`DXYN`) never errors. -/
theorem execute_draw_ok (o : Oracle) (w : Nat) (s : Chip8)
    (h1 : opcodeOf w = 0xD000) : (execute o w s).2 = none := by
  unfold execute
  rw [h1]

/-- C2 (amended): in the `display` package (`src/unnamed/part_001`), `Clear`
and `DrawSprite` return exactly the Drawer's `Draw` result, so they fail
exactly when the Drawer fails and the error propagates unchanged.  In the
`chip8` package of `chip8/chip8.go`, however, `Display.Clear` and
`Display.DrawSprite` discard the Drawer's error, and `Cycle` returns no
error for the clear-screen and draw opcodes no matter what the Drawer
reports. -/
theorem drawer_error_propagation :
    (∀ (draw : Grid → Option Nat) (px : Grid),
        (displayClear draw px).2 = draw (fun _ _ => false)) ∧
    (∀ (draw : Grid → Option Nat) (x y : Nat) (sprite : List Nat) (px : Grid),
        (displayDrawSprite draw x y sprite px).2 = draw (drawSprite x y sprite px).1) ∧
    (∀ (o : Oracle) (s : Chip8), opcodeOf (fetchWord s) = 0x0000 →
        nnOf (fetchWord s) = 0xE0 → (cycle o s).err = none) ∧
    (∀ (o : Oracle) (s : Chip8), opcodeOf (fetchWord s) = 0xD000 →
        (cycle o s).err = none) := by
  refine ⟨fun _ _ => rfl, fun _ _ _ _ _ => rfl, fun o s h1 h2 => ?_, fun o s h1 => ?_⟩
  · exact cycle_err_of_execute o s (execute_clear_ok o _ _ h1 h2)
  · exact cycle_err_of_execute o s (execute_draw_ok o _ _ h1)

/-- An oracle whose Drawer always fails with presentation error `7`. -/
def failOracle : Oracle :=
  { isKeyDown := fun _ => false, wasKeyReleased := fun _ => false,
    randByte := 0, draw := fun _ => some 7 }

/-- Concrete state whose next fetched word is `0x00E0` (clear screen). -/
def clearOldState : Chip8 :=
  { v := fun _ => 0, i := 0, pc := 0x200, stack := fun _ => 0, sp := 0,
    memory := fun a => if a = 0x201 then 0xE0 else 0,
    pixels := fun _ _ => true, delayTimer := 0, soundTimer := 0 }

/-- Witness for C2's amended statement at concrete inputs. -/
theorem drawer_error_propagation_witness :
    (displayClear (fun _ => some 7) (fun _ _ => true)).2 = some 7 ∧
    (opcodeOf (fetchWord clearOldState) = 0x0000 ∧ nnOf (fetchWord clearOldState) = 0xE0) ∧
    (cycle failOracle clearOldState).err = none :=
  ⟨drawer_error_propagation.1 (fun _ => some 7) (fun _ _ => true), ⟨by decide, by decide⟩,
    drawer_error_propagation.2.2.1 failOracle clearOldState (by decide) (by decide)⟩

/-- C2 counterexample: with a Drawer that reports presentation error `7`, the
old core's `Cycle` still returns no error for the `00E0` opcode — the
Drawer's failure is discarded instead of being propagated. -/
theorem drawer_error_swallowed_counterexample :
    failOracle.draw ((cycle failOracle clearOldState).state.pixels) = some 7 ∧
    (cycle failOracle clearOldState).err = none := by decide

/-- C10: when `execute` fails on the fetched word, `Cycle` returns that very
error; it carries the already-advanced `pc` and the raw word, the state keeps
that advanced `pc`, the timers are not decremented (the tick runs only after
a successful execute), and no beep happens. -/
theorem cycle_unknown_error (o : Oracle) (s : Chip8) (e : ErrInfo)
    (h : (execute o (fetchWord s) (postFetch s)).2 = some e) :
    (cycle o s).err = some e ∧
    e.pc = (PC s + 2) % 65536 ∧ e.word = fetchWord s ∧
    (cycle o s).state = postFetch s ∧
    (cycle o s).state.delayTimer = s.delayTimer ∧
    (cycle o s).state.soundTimer = s.soundTimer ∧
    (cycle o s).state.pc = (PC s + 2) % 65536 ∧
    (cycle o s).beeps = 0 := by
  rcases execute_err_cases o (fetchWord s) (postFetch s) with hn | he
  · rw [hn] at h; cases h
  · rw [he] at h
    have he2 : e = ⟨PC (postFetch s), fetchWord s⟩ := by
      cases h; rfl
    have hpc : PC (postFetch s) = (PC s + 2) % 65536 := by
      simp only [postFetch, PC]
      omega
    have hstate : (cycle o s).state = postFetch s := by
      simp only [cycle, he]
    have herr : (cycle o s).err = some e := by
      rw [he2]
      simp only [cycle, he]
    have hbeeps : (cycle o s).beeps = 0 := by
      simp only [cycle, he]
    subst he2
    exact ⟨herr, by simpa using hpc, rfl, hstate, by rw [hstate]; rfl,
      by rw [hstate]; rfl, by rw [hstate]; rfl, hbeeps⟩

/-- Witness for C10 at the initial state, whose fetched word `0x0000` is
unknown: the error carries `pc = 0x202` (already advanced) and word `0`. -/
theorem cycle_unknown_error_witness :
    (execute noOracle (fetchWord initState) (postFetch initState)).2 = some ⟨0x202, 0⟩ ∧
    ((cycle noOracle initState).err = some ⟨0x202, 0⟩ ∧
     (⟨0x202, 0⟩ : ErrInfo).pc = (PC initState + 2) % 65536 ∧
     (⟨0x202, 0⟩ : ErrInfo).word = fetchWord initState ∧
     (cycle noOracle initState).state = postFetch initState ∧
     (cycle noOracle initState).state.delayTimer = initState.delayTimer ∧
     (cycle noOracle initState).state.soundTimer = initState.soundTimer ∧
     (cycle noOracle initState).state.pc = (PC initState + 2) % 65536 ∧
     (cycle noOracle initState).beeps = 0) :=
  ⟨by decide, cycle_unknown_error noOracle initState ⟨0x202, 0⟩ (by decide)⟩

/-- C6 (amended): for `x ≠ 0xF`, the shifts `8XY6`/`8XYE` copy `Vy` into
`Vx`, shift the copy by one (right/left) and set `VF` to the bit shifted out
of the copied value (low bit for `8XY6`, high bit for `8XYE`).  (For
`x = 0xF` all three sequential writes target `VF`, so the final `VF` is not
the shifted-out bit — see the counterexample.) -/
theorem shift_copy_then_shift (o : Oracle) (s : Chip8) (w : Nat)
    (hop : opcodeOf w = 0x8000) (hx : xOf w ≠ 15) :
    (nOf w = 0x6 →
      (execute o w s).2 = none ∧
      V (execute o w s).1 (xOf w) = V s (yOf w) >>> 1 ∧
      V (execute o w s).1 15 = V s (yOf w) &&& 1) ∧
    (nOf w = 0xE →
      (execute o w s).2 = none ∧
      V (execute o w s).1 (xOf w) = (V s (yOf w) <<< 1) % 256 ∧
      V (execute o w s).1 15 = V s (yOf w) >>> 7) := by
  have hxs : (15 : Nat) ≠ xOf w := Ne.symm hx
  constructor
  · intro hn
    unfold execute
    rw [hop, hn]
    refine ⟨rfl, ?_, ?_⟩
    · simp [V, setV, upd, hx, hxs] <;> omega
    · simp [V, setV, upd, hx, hxs] <;> omega
  · intro hn
    unfold execute
    rw [hop, hn]
    refine ⟨rfl, ?_, ?_⟩
    · simp [V, setV, upd, hx, hxs] <;> omega
    · simp [V, setV, upd, hx, hxs] <;> omega

/-- Concrete register file for the shift claims: `V2 = 5`. -/
def regState : Chip8 :=
  { v := fun j => if j = 2 then 5 else 0, i := 0, pc := 0x200,
    stack := fun _ => 0, sp := 0, memory := fun _ => 0,
    pixels := fun _ _ => false, delayTimer := 0, soundTimer := 0 }

/-- Witness for C6 at `8126` (`x = 1`, `y = 2`, `V2 = 5`): `V1` becomes
`5 >>> 1 = 2` and `VF` the shifted-out low bit `1`. -/
theorem shift_copy_then_shift_witness :
    (opcodeOf 0x8126 = 0x8000 ∧ xOf 0x8126 ≠ 15 ∧ nOf 0x8126 = 0x6) ∧
    ((execute noOracle 0x8126 regState).2 = none ∧
     V (execute noOracle 0x8126 regState).1 (xOf 0x8126) = V regState (yOf 0x8126) >>> 1 ∧
     V (execute noOracle 0x8126 regState).1 15 = V regState (yOf 0x8126) &&& 1) ∧
    V (execute noOracle 0x8126 regState).1 1 = 2 :=
  ⟨⟨by decide, by decide, by decide⟩,
   (shift_copy_then_shift noOracle regState 0x8126 (by decide) (by decide)).1 (by decide),
   by decide⟩

/-- C6 counterexample: at `8F26` (`x = 0xF`, `y = 2`, `V2 = 5`) the claim
says `VF` ends as the shifted-out low bit `5 &&& 1 = 1`, but the code's
write sequence (`VF := V2; VF := VF&1; VF := VF>>1`) leaves `VF = 0`. -/
theorem shift_x15_counterexample :
    V (execute noOracle 0x8F26 regState).1 15 = 0 ∧ V regState 2 &&& 1 = 1 := by decide

/-- If the `FX0A` scan returns index `i`, then `i` is in the scanned window,
its key was released, and no smaller scanned index was released. -/
theorem findReleasedAux_some (f : Nat → Bool) :
    ∀ fuel start i, findReleasedAux f fuel start = some i →
      start ≤ i ∧ i < start + fuel ∧ f i = true ∧
      ∀ j, start ≤ j → j < i → f j = false := by
  intro fuel
  induction fuel with
  | zero => intro start i h; simp [findReleasedAux] at h
  | succ n ih =>
    intro start i h
    simp only [findReleasedAux] at h
    by_cases hf : f start
    · rw [if_pos hf] at h
      cases h
      exact ⟨le_refl _, by omega, hf, fun j hj1 hj2 => absurd (lt_of_le_of_lt hj1 hj2) (lt_irrefl _)⟩
    · rw [if_neg hf] at h
      obtain ⟨h1, h2, h3, h4⟩ := ih (start + 1) i h
      refine ⟨by omega, by omega, h3, fun j hj1 hj2 => ?_⟩
      rcases Nat.eq_or_lt_of_le hj1 with hj | hj
      · rw [hj] at hf; simpa using hf
      · exact h4 j hj hj2

/-- If the `FX0A` scan returns nothing, no scanned key was released. -/
theorem findReleasedAux_none (f : Nat → Bool) :
    ∀ fuel start, findReleasedAux f fuel start = none →
      ∀ j, start ≤ j → j < start + fuel → f j = false := by
  intro fuel
  induction fuel with
  | zero => intro start _ j hj1 hj2; omega
  | succ n ih =>
    intro start h j hj1 hj2
    simp only [findReleasedAux] at h
    by_cases hf : f start
    · rw [if_pos hf] at h; cases h
    · rw [if_neg hf] at h
      rcases Nat.eq_or_lt_of_le hj1 with hj | hj
      · rw [hj] at hf; simpa using hf
      · exact ih (start + 1) h j hj (by omega)

/-- C8: `FX0A` scans key indices 0–15 in ascending order for the first one
the Keys collaborator reports released.  If index `i` is found first, the
only state change is `Vx := i` (the `pc` of the post-fetch state `s` is
kept, memory and timers untouched); if none is found, the only change is
`pc -= 2`, so the same instruction re-executes next cycle. -/
theorem fx0a_wait_for_key (o : Oracle) (s : Chip8) (w : Nat)
    (hop : opcodeOf w = 0xF000) (hnn : nnOf w = 0x0A) :
    (execute o w s).2 = none ∧
    (∀ i, findReleasedAux o.wasKeyReleased 16 0 = some i →
      i < 16 ∧ o.wasKeyReleased i = true ∧ (∀ j < i, o.wasKeyReleased j = false) ∧
      (execute o w s).1 = setV s (xOf w) i) ∧
    (findReleasedAux o.wasKeyReleased 16 0 = none →
      (∀ j < 16, o.wasKeyReleased j = false) ∧
      (execute o w s).1 = { s with pc := (PC s + 65534) % 65536 }) := by
  unfold execute
  rw [hop, hnn]
  refine ⟨?_, ?_, ?_⟩
  · rcases hk : findReleasedAux o.wasKeyReleased 16 0 with _ | i <;> simp [hk]
  · intro i hi
    obtain ⟨h1, h2, h3, h4⟩ := findReleasedAux_some o.wasKeyReleased 16 0 i hi
    refine ⟨by omega, h3, fun j hj => h4 j (Nat.zero_le _) hj, ?_⟩
    simp only [hi]
  · intro hn
    refine ⟨fun j hj => findReleasedAux_none o.wasKeyReleased 16 0 hn j (Nat.zero_le _) (by omega), ?_⟩
    simp only [hn]

/-- An oracle reporting exactly key 3 as released. -/
def keyOracle : Oracle :=
  { isKeyDown := fun _ => false, wasKeyReleased := fun i => decide (i = 3),
    randByte := 0, draw := fun _ => none }

/-- Witness for C8 at `F50A` with key 3 released: `V5` receives 3 and the
scan facts hold. -/
theorem fx0a_wait_for_key_witness :
    (opcodeOf 0xF50A = 0xF000 ∧ nnOf 0xF50A = 0x0A ∧
     findReleasedAux keyOracle.wasKeyReleased 16 0 = some 3) ∧
    (3 < 16 ∧ keyOracle.wasKeyReleased 3 = true ∧
     (∀ j < 3, keyOracle.wasKeyReleased j = false) ∧
     (execute keyOracle 0xF50A regState).1 = setV regState (xOf 0xF50A) 3) ∧
    V (execute keyOracle 0xF50A regState).1 5 = 3 :=
  ⟨⟨by decide, by decide, by decide⟩,
   (fx0a_wait_for_key keyOracle regState 0xF50A (by decide) (by decide)).2.1 3 (by decide),
   by decide⟩

/-- `w &&& 0xFF` is the low byte. -/
theorem and_255 (w : Nat) : w &&& 255 = w % 256 := by
  have h := Nat.and_pow_two_sub_one_eq_mod w 8
  norm_num at h
  exact h

/-- `w &&& 0xF` is the low nibble. -/
theorem and_15 (w : Nat) : w &&& 15 = w % 16 := by
  have h := Nat.and_pow_two_sub_one_eq_mod w 4
  norm_num at h
  exact h

/-- `w &&& 0xF000` extracts bits 12–15. -/
theorem mask_f000 (w : Nat) : w &&& 61440 = w / 4096 % 16 * 4096 := by
  have hdiv : w / 4096 = w >>> 12 := by
    rw [Nat.shiftRight_eq_div_pow]
  have hmul : w >>> 12 % 16 * 4096 = (w >>> 12 % 2 ^ 4) <<< 12 := by
    rw [Nat.shiftLeft_eq]
    norm_num
  rw [hdiv, hmul]
  apply Nat.eq_of_testBit_eq
  intro i
  rw [Nat.testBit_and, Nat.testBit_shiftLeft, Nat.testBit_mod_two_pow,
    Nat.testBit_shiftRight]
  rcases lt_or_ge i 12 with h | h
  · have hb : Nat.testBit 61440 i = false := by
      interval_cases i <;> decide
    simp [hb, h]
  · rcases lt_or_ge i 16 with h16 | h16
    · have hi : 12 + (i - 12) = i := by omega
      rw [hi]
      have hb : Nat.testBit 61440 i = true := by
        interval_cases i <;> decide
      have h4 : i - 12 < 4 := by omega
      simp [hb, h, h4, Bool.and_comm]
    · have hb : Nat.testBit 61440 i = false := by
        apply Nat.testBit_eq_false_of_lt
        calc 61440 < 2 ^ 16 := by norm_num
        _ ≤ 2 ^ i := Nat.pow_le_pow_right (by norm_num) h16
      have h4 : ¬ (i - 12 < 4) := by omega
      simp [hb, h4]

/-- The decoder looks at a word only through `opcode()`, `nn()` and `n()`. -/
theorem instructionOf_eq_of_fields (w w' : Nat) (h1 : opcodeOf w = opcodeOf w')
    (h2 : nnOf w = nnOf w') (h3 : nOf w = nOf w') :
    instructionOf w = instructionOf w' := by
  unfold instructionOf
  rw [h1, h2, h3]

/-- Any 16-bit word decodes like its normal form `hi * 4096 + nn`. -/
theorem instructionOf_normalize (w : Nat) (hw : w < 65536) :
    instructionOf w = instructionOf (w / 4096 * 4096 + w % 256) := by
  apply instructionOf_eq_of_fields
  · show w &&& 61440 = (w / 4096 * 4096 + w % 256) &&& 61440
    rw [mask_f000, mask_f000]
    omega
  · show w &&& 255 = (w / 4096 * 4096 + w % 256) &&& 255
    rw [and_255, and_255]
    omega
  · show w &&& 15 = (w / 4096 * 4096 + w % 256) &&& 15
    rw [and_15, and_15]
    omega

set_option maxRecDepth 4000 in
/-- Exhaustive check of the decoder against the spec table on the normal
forms `hi * 4096 + nn`. -/
theorem decode_table : ∀ hi < 16, ∀ nn < 256,
    instructionOf (hi * 4096 + nn) = decodeSpec hi nn := by decide

/-- C5: for every 16-bit word the decoder `Opcode.Instruction()` returns the
tag given by the spec's classification — a pure function of the top nibble
and the low byte, with the `0x5`/`0x9` families validating that the trailing
nibble is 0 (else `Unknown`), and second-level dispatch on `nn`/`n` for
families `0x0`, `0x8`, `0xE`, `0xF`. -/
theorem decoder_refines_spec :
    ∀ w : Fin 65536, instructionOf w.val = decodeSpec (w.val / 4096) (w.val % 256) := by
  intro w
  have hw : w.val < 65536 := w.isLt
  rw [instructionOf_normalize w.val hw]
  exact decode_table (w.val / 4096) (by omega) (w.val % 256) (by omega)

/-- Every `execute` branch except `FX18` leaves the sound timer field
untouched. -/
theorem execute_soundTimer (o : Oracle) (w : Nat) (s : Chip8) (h : isFX18 w = false) :
    ((execute o w s).1).soundTimer = s.soundTimer := by
  unfold execute
  repeat' split
  all_goals (first | rfl | simp_all [isFX18, setV])

/-- One successful non-`FX18` cycle decrements a non-zero sound timer by one
(and leaves zero at zero), and beeps exactly on the 1 → 0 transition. -/
theorem cycle_sound (o : Oracle) (s : Chip8)
    (h18 : isFX18 (fetchWord s) = false)
    (herr : (cycle o s).err = none) :
    ST (cycle o s).state = ST s - 1 ∧
    (cycle o s).beeps = if ST s = 1 then 1 else 0 := by
  rcases hex : (execute o (fetchWord s) (postFetch s)).2 with _ | e
  · have h2 : ((execute o (fetchWord s) (postFetch s)).1).soundTimer = s.soundTimer :=
      execute_soundTimer o (fetchWord s) (postFetch s) h18
    simp only [cycle, hex]
    split <;> split <;>
      (refine ⟨?_, ?_⟩ <;> (simp only [ST, DT, h2] at * <;> (first | omega | (split_ifs <;> omega))))
  · exfalso
    simp only [cycle, hex] at herr
    cases herr

/-- C4: over any run of successful cycles that never executes `FX18` (so no
instruction rewrites the sound timer), the sound timer decreases by exactly 1
per cycle while non-zero and sticks at 0 (value `ST s - n` after `n` cycles),
and `Beep()` fires exactly once — on the cycle where the timer goes 1 → 0 —
so the run's total beep count is 1 exactly when `0 < ST s ≤ n`, else 0. -/
theorem sound_timer_run (os : Nat → Oracle) (n : Nat) (s : Chip8)
    (h : goodRun os n s = true) :
    (runCycles os n s).2.2 = none ∧
    ST (runCycles os n s).1 = ST s - n ∧
    (runCycles os n s).2.1 = if ST s = 0 ∨ n < ST s then 0 else 1 := by
  induction n generalizing os s with
  | zero =>
    refine ⟨rfl, rfl, ?_⟩
    rw [if_pos (by omega)]
    rfl
  | succ n ih =>
    simp only [goodRun, Bool.and_eq_true, Bool.not_eq_true', Option.isNone_iff_eq_none] at h
    obtain ⟨⟨h18, herrn⟩, hrest⟩ := h
    obtain ⟨hst, hbeeps⟩ := cycle_sound (os 0) s h18 herrn
    obtain ⟨ih1, ih2, ih3⟩ := ih (fun k => os (k + 1)) (cycle (os 0) s).state hrest
    simp only [runCycles, herrn]
    refine ⟨ih1, ?_, ?_⟩
    · rw [ih2, hst]
      omega
    · rw [ih3, hst, hbeeps]
      split_ifs <;> omega

/-- A state executing the self-jump `1200` forever, with the sound timer
preset to 5. -/
def jumpState : Chip8 :=
  { v := fun _ => 0, i := 0, pc := 0x200, stack := fun _ => 0, sp := 0,
    memory := fun a => if a = 0x200 then 0x12 else 0,
    pixels := fun _ _ => false, delayTimer := 0, soundTimer := 5 }

/-- Witness for C4: seven cycles of the self-jump loop with the sound timer
preset to 5 yield exactly one beep and the timer pinned at 0. -/
theorem sound_timer_run_witness :
    goodRun (fun _ => noOracle) 7 jumpState = true ∧
    ((runCycles (fun _ => noOracle) 7 jumpState).2.2 = none ∧
     ST (runCycles (fun _ => noOracle) 7 jumpState).1 = ST jumpState - 7 ∧
     (runCycles (fun _ => noOracle) 7 jumpState).2.1 =
       if ST jumpState = 0 ∨ 7 < ST jumpState then 0 else 1) ∧
    (runCycles (fun _ => noOracle) 7 jumpState).2.1 = 1 :=
  ⟨by decide, sound_timer_run (fun _ => noOracle) 7 jumpState (by decide), by decide⟩

/-- The three-way pixel update of one `DrawSprite` column step is an XOR of
the sprite bit into the target pixel. -/
theorem colStep (px : Grid) (R X col byte : Nat) (r c : Nat) :
    (if px R (X + col) && spriteBit byte col then updG px R (X + col) false
     else if !(px R (X + col)) && spriteBit byte col then updG px R (X + col) true
     else px) r c
    = if r = R ∧ c = X + col then xor (px r c) (spriteBit byte col) else px r c := by
  by_cases hrc : r = R ∧ c = X + col
  · obtain ⟨rfl, rfl⟩ := hrc
    by_cases hb : spriteBit byte col <;> by_cases hp : px r (X + col) <;>
      simp [updG, hb, hp]
  · by_cases hb : spriteBit byte col <;> by_cases hp : px R (X + col) <;>
      simp [updG, hb, hp, hrc]

/-- Pointwise effect of the inner column loop: columns `X+col ≤ c <
X+col+fuel` of row `R` that lie left of column 64 are XOR-ed with the
matching sprite bit; everything else is untouched. -/
theorem drawCols_point (X R byte : Nat) :
    ∀ (fuel col : Nat) (px : Grid) (vf : Nat) (r c : Nat),
      (drawCols X R byte fuel col px vf).1 r c =
        if r = R ∧ X + col ≤ c ∧ c < X + col + fuel ∧ c < 64
        then xor (px r c) (spriteBit byte (c - X))
        else px r c := by
  intro fuel
  induction fuel with
  | zero =>
    intro col px vf r c
    simp only [drawCols]
    rw [if_neg (by omega)]
  | succ n ih =>
    intro col px vf r c
    simp only [drawCols]
    by_cases hbreak : 64 ≤ X + col
    · rw [if_pos hbreak, if_neg (by omega)]
    · rw [if_neg hbreak, ih, colStep]
      by_cases h1 : r = R ∧ c = X + col
      · obtain ⟨rfl, rfl⟩ := h1
        rw [if_neg (by omega), if_pos ⟨rfl, rfl⟩,
          if_pos ⟨rfl, by omega, by omega, by omega⟩, Nat.add_sub_cancel_left]
      · rw [if_neg h1]
        by_cases h2 : r = R ∧ X + (col + 1) ≤ c ∧ c < X + (col + 1) + n ∧ c < 64
        · rw [if_pos h2, if_pos ⟨h2.1, by omega, by omega, by omega⟩]
        · rw [if_neg h2, if_neg (by omega)]

open Classical in
/-- The collision flag after the inner column loop: it becomes 1 exactly when
some drawn column of row `R` had its pixel set and the sprite bit set, and
otherwise keeps its input value. -/
theorem drawCols_vf (X R byte : Nat) :
    ∀ (fuel col : Nat) (px : Grid) (vf : Nat),
      (drawCols X R byte fuel col px vf).2 =
        if ∃ c, X + col ≤ c ∧ c < X + col + fuel ∧ c < 64 ∧
            px R c = true ∧ spriteBit byte (c - X) = true
        then 1 else vf := by
  intro fuel
  induction fuel with
  | zero =>
    intro col px vf
    simp only [drawCols]
    rw [if_neg (by rintro ⟨c, h1, h2, -⟩; omega)]
  | succ n ih =>
    intro col px vf
    simp only [drawCols]
    by_cases hbreak : 64 ≤ X + col
    · rw [if_pos hbreak, if_neg (by rintro ⟨c, h1, -, h3, -⟩; omega)]
    · rw [if_neg hbreak, ih]
      have hiff : (∃ c, X + (col + 1) ≤ c ∧ c < X + (col + 1) + n ∧ c < 64 ∧
          (if px R (X + col) && spriteBit byte col then updG px R (X + col) false
           else if !(px R (X + col)) && spriteBit byte col then updG px R (X + col) true
           else px) R c = true ∧ spriteBit byte (c - X) = true) ↔
          (∃ c, X + (col + 1) ≤ c ∧ c < X + (col + 1) + n ∧ c < 64 ∧
            px R c = true ∧ spriteBit byte (c - X) = true) := by
        constructor
        · rintro ⟨c, h1, h2, h3, h4, h5⟩
          rw [colStep, if_neg (by omega)] at h4
          exact ⟨c, h1, h2, h3, h4, h5⟩
        · rintro ⟨c, h1, h2, h3, h4, h5⟩
          refine ⟨c, h1, h2, h3, ?_, h5⟩
          rw [colStep, if_neg (by omega)]
          exact h4
      rw [if_congr hiff rfl rfl]
      by_cases hhead : px R (X + col) = true ∧ spriteBit byte col = true
      · have hv : (if px R (X + col) && spriteBit byte col then 1 else vf) = 1 := by
          simp [hhead.1, hhead.2]
        rw [hv, ite_self, if_pos ⟨X + col, by omega, by omega, by omega, hhead.1,
          by rw [Nat.add_sub_cancel_left]; exact hhead.2⟩]
      · have hv : (if px R (X + col) && spriteBit byte col then 1 else vf) = vf := by
          have hno : ¬(px R (X + col) && spriteBit byte col) = true := by
            simp only [Bool.and_eq_true]
            exact hhead
          rw [if_neg hno]
        rw [hv]
        by_cases htail : ∃ c, X + (col + 1) ≤ c ∧ c < X + (col + 1) + n ∧ c < 64 ∧
            px R c = true ∧ spriteBit byte (c - X) = true
        · obtain ⟨c, h1, h2, h3, h4, h5⟩ := htail
          rw [if_pos ⟨c, h1, h2, h3, h4, h5⟩,
            if_pos ⟨c, by omega, by omega, h3, h4, h5⟩]
        · rw [if_neg htail, if_neg ?_]
          rintro ⟨c, h1, h2, h3, h4, h5⟩
          rcases Nat.eq_or_lt_of_le h1 with hc | hc
          · apply hhead
            refine ⟨by rw [hc]; exact h4, ?_⟩
            rw [← Nat.add_sub_cancel_left X col, hc]
            exact h5
          · exact htail ⟨c, by omega, by omega, h3, h4, h5⟩

/-- Pointwise effect of the row loop: row `Y+row+k` (for byte `k` of the
remaining sprite) is XOR-ed in columns `X ≤ c < X+8`, provided the row is
above 32 and the column left of 64; everything else is untouched. -/
theorem drawRows_point (X Y : Nat) :
    ∀ (bs : List Nat) (row : Nat) (px : Grid) (vf : Nat) (r c : Nat),
      (drawRows X Y bs row px vf).1 r c =
        if Y + row ≤ r ∧ r < Y + row + bs.length ∧ r < 32 ∧
            X ≤ c ∧ c < X + 8 ∧ c < 64
        then xor (px r c) (spriteBit (bs.getD (r - (Y + row)) 0) (c - X))
        else px r c := by
  intro bs
  induction bs with
  | nil =>
    intro row px vf r c
    simp only [drawRows, List.length_nil]
    rw [if_neg (by omega)]
  | cons b rest ih =>
    intro row px vf r c
    simp only [drawRows, List.length_cons]
    by_cases hbreak : 32 ≤ Y + row
    · rw [if_pos hbreak, if_neg (by omega)]
    · rw [if_neg hbreak, ih, drawCols_point]
      by_cases h1 : r = Y + row
      · subst h1
        rw [if_neg (by omega)]
        by_cases h2 : X ≤ c ∧ c < X + 8 ∧ c < 64
        · rw [if_pos ⟨rfl, by omega, by omega, by omega⟩,
            if_pos (by omega),
            show Y + row - (Y + row) = 0 from by omega, List.getD_cons_zero]
        · rw [if_neg (by omega), if_neg (by omega)]
      · by_cases h2 : Y + (row + 1) ≤ r ∧ r < Y + (row + 1) + rest.length ∧
            r < 32 ∧ X ≤ c ∧ c < X + 8 ∧ c < 64
        · rw [if_pos h2, if_neg (by omega), if_pos (by omega),
            show r - (Y + row) = (r - (Y + (row + 1))) + 1 from by omega,
            List.getD_cons_succ]
        · rw [if_neg h2, if_neg (by omega), if_neg (by omega)]

open Classical in
/-- The collision flag after the row loop: 1 exactly when some drawn pixel
had both the grid pixel and the sprite bit set, else the input flag. -/
theorem drawRows_vf (X Y : Nat) :
    ∀ (bs : List Nat) (row : Nat) (px : Grid) (vf : Nat),
      (drawRows X Y bs row px vf).2 =
        if ∃ r c, Y + row ≤ r ∧ r < Y + row + bs.length ∧ r < 32 ∧
            X ≤ c ∧ c < X + 8 ∧ c < 64 ∧ px r c = true ∧
            spriteBit (bs.getD (r - (Y + row)) 0) (c - X) = true
        then 1 else vf := by
  intro bs
  induction bs with
  | nil =>
    intro row px vf
    simp only [drawRows, List.length_nil]
    rw [if_neg (by rintro ⟨r, c, h1, h2, -⟩; omega)]
  | cons b rest ih =>
    intro row px vf
    simp only [drawRows, List.length_cons]
    by_cases hbreak : 32 ≤ Y + row
    · rw [if_pos hbreak, if_neg (by rintro ⟨r, c, h1, -, h3, -⟩; omega)]
    · rw [if_neg hbreak, ih, drawCols_vf]
      simp only [drawCols_point]
      have hiff : (∃ r c, Y + (row + 1) ≤ r ∧ r < Y + (row + 1) + rest.length ∧
          r < 32 ∧ X ≤ c ∧ c < X + 8 ∧ c < 64 ∧
          (if r = Y + row ∧ X + 0 ≤ c ∧ c < X + 0 + 8 ∧ c < 64
           then xor (px r c) (spriteBit b (c - X)) else px r c) = true ∧
          spriteBit (rest.getD (r - (Y + (row + 1))) 0) (c - X) = true) ↔
          (∃ r c, Y + (row + 1) ≤ r ∧ r < Y + (row + 1) + rest.length ∧
            r < 32 ∧ X ≤ c ∧ c < X + 8 ∧ c < 64 ∧ px r c = true ∧
            spriteBit (rest.getD (r - (Y + (row + 1))) 0) (c - X) = true) := by
        constructor
        · rintro ⟨r, c, h1, h2, h3, h4, h5, h6, h7, h8⟩
          rw [if_neg (by omega)] at h7
          exact ⟨r, c, h1, h2, h3, h4, h5, h6, h7, h8⟩
        · rintro ⟨r, c, h1, h2, h3, h4, h5, h6, h7, h8⟩
          refine ⟨r, c, h1, h2, h3, h4, h5, h6, ?_, h8⟩
          rw [if_neg (by omega)]
          exact h7
      rw [if_congr hiff rfl rfl]
      by_cases hh : ∃ c, X + 0 ≤ c ∧ c < X + 0 + 8 ∧ c < 64 ∧
          px (Y + row) c = true ∧ spriteBit b (c - X) = true
      · rw [if_pos hh, ite_self]
        obtain ⟨c, hc1, hc2, hc3, hc4, hc5⟩ := hh
        rw [if_pos ⟨Y + row, c, by omega, by omega, by omega, by omega, by omega,
          hc3, hc4, by
            rw [show Y + row - (Y + row) = 0 from by omega, List.getD_cons_zero]
            exact hc5⟩]
      · rw [if_neg hh]
        by_cases ht : ∃ r c, Y + (row + 1) ≤ r ∧ r < Y + (row + 1) + rest.length ∧
            r < 32 ∧ X ≤ c ∧ c < X + 8 ∧ c < 64 ∧ px r c = true ∧
            spriteBit (rest.getD (r - (Y + (row + 1))) 0) (c - X) = true
        · obtain ⟨r, c, h1, h2, h3, h4, h5, h6, h7, h8⟩ := ht
          rw [if_pos ⟨r, c, h1, h2, h3, h4, h5, h6, h7, h8⟩,
            if_pos ⟨r, c, by omega, by omega, h3, h4, h5, h6, h7, by
              rw [show r - (Y + row) = (r - (Y + (row + 1))) + 1 from by omega,
                List.getD_cons_succ]
              exact h8⟩]
        · rw [if_neg ht, if_neg ?_]
          rintro ⟨r, c, h1, h2, h3, h4, h5, h6, h7, h8⟩
          by_cases hr : r = Y + row
          · subst hr
            apply hh
            refine ⟨c, by omega, by omega, h6, h7, ?_⟩
            rw [show Y + row - (Y + row) = 0 from by omega, List.getD_cons_zero] at h8
            exact h8
          · apply ht
            refine ⟨r, c, by omega, by omega, h3, h4, h5, h6, h7, ?_⟩
            rw [show r - (Y + row) = (r - (Y + (row + 1))) + 1 from by omega,
              List.getD_cons_succ] at h8
            exact h8

open Classical in
/-- C3: `DrawSprite` XOR-blits the sprite — pixel `(r, c)` inside the drawn
region (`y ≤ r < y + rows`, `r < 32`, `x ≤ c < x + 8`, `c < 64`, MSB first)
becomes its old value XOR the sprite bit (set+set clears, clear+set sets,
sprite bit 0 leaves it), pixels outside (rows ≥ 32 and columns ≥ 64 are
skipped with no wraparound) are untouched; and the returned flag is 1 iff
some drawn pixel was set while its sprite bit was set (a collision), else
0. -/
theorem drawSprite_xor_collision (x y : Nat) (sprite : List Nat) (px : Grid) :
    (∀ r c,
      (drawSprite x y sprite px).1 r c =
        if y ≤ r ∧ r < y + sprite.length ∧ r < 32 ∧ x ≤ c ∧ c < x + 8 ∧ c < 64
        then xor (px r c) (spriteBit (sprite.getD (r - y) 0) (c - x))
        else px r c) ∧
    ((drawSprite x y sprite px).2 = 1 ↔
      ∃ r c, y ≤ r ∧ r < y + sprite.length ∧ r < 32 ∧ x ≤ c ∧ c < x + 8 ∧ c < 64 ∧
        px r c = true ∧ spriteBit (sprite.getD (r - y) 0) (c - x) = true) ∧
    ((drawSprite x y sprite px).2 = 0 ↔
      ¬∃ r c, y ≤ r ∧ r < y + sprite.length ∧ r < 32 ∧ x ≤ c ∧ c < x + 8 ∧ c < 64 ∧
        px r c = true ∧ spriteBit (sprite.getD (r - y) 0) (c - x) = true) := by
  have hvf := drawRows_vf x y sprite 0 px 0
  have hvf' : (drawSprite x y sprite px).2 =
      if ∃ r c, y ≤ r ∧ r < y + sprite.length ∧ r < 32 ∧ x ≤ c ∧ c < x + 8 ∧
          c < 64 ∧ px r c = true ∧ spriteBit (sprite.getD (r - y) 0) (c - x) = true
      then 1 else 0 := by
    simpa [drawSprite] using hvf
  refine ⟨?_, ?_, ?_⟩
  · intro r c
    have h := drawRows_point x y sprite 0 px 0 r c
    simpa [drawSprite] using h
  · rw [hvf']
    by_cases hc : ∃ r c, y ≤ r ∧ r < y + sprite.length ∧ r < 32 ∧ x ≤ c ∧
        c < x + 8 ∧ c < 64 ∧ px r c = true ∧
        spriteBit (sprite.getD (r - y) 0) (c - x) = true
    · simp [hc]
    · simp [hc]
  · rw [hvf']
    by_cases hc : ∃ r c, y ≤ r ∧ r < y + sprite.length ∧ r < 32 ∧ x ≤ c ∧
        c < x + 8 ∧ c < 64 ∧ px r c = true ∧
        spriteBit (sprite.getD (r - y) 0) (c - x) = true
    · simp [hc]
    · simp [hc]

example :
    (drawSprite 0 31 [0xFF, 0xFF] (fun _ _ => false)).1 31 0 = true ∧
    (drawSprite 0 31 [0xFF, 0xFF] (fun _ _ => false)).1 32 0 = false ∧
    (drawSprite 0 31 [0xFF, 0xFF] (fun _ _ => false)).2 = 0 := by decide

example :
    (drawSprite 0 0 [0x80] (fun r c => decide (r = 0 ∧ c = 0))).1 0 0 = false ∧
    (drawSprite 0 0 [0x80] (fun r c => decide (r = 0 ∧ c = 0))).2 = 1 := by decide

end Chip8Em
